import Mathlib

/-!
Verification of the content-collection ingestion and locale-resolution core
of the uos-projects/pages repository, shallowly embedded in Lean 4.

The locale code (`languages`, `defaultLang`, `ui`, `getLangFromUrl`,
`useTranslations`) is embedded from the i18n module of the repository.
JavaScript object literals are modelled as association lists of own
properties together with the `Object.prototype` chain that the `in`
operator (`jsIn`) and property access (`jsGet`) additionally traverse;
dynamic values (string, inherited member, `undefined`) are `JsValue`,
and the truthiness-based operator `a || b` is `jsOrV` (falsy =
`undefined` or the empty string), with `jsOr` its restriction to
own-property string lookups.
-/

/-- The `languages` constant of the i18n module: language code to display name. -/
def languages : List (String × String) := [("zh", "中文"), ("en", "English")]

/-- The `defaultLang` constant of the i18n module. -/
def defaultLang : String := "zh"

/-- OWN-property lookup of a JavaScript object literal modelled as an
association list: first binding wins; a missing own key is `none`. The
prototype chain that full property access and the `in` operator additionally
traverse is modelled separately by `jsGet` and `jsIn` below. -/
def lookupTbl {α : Type} : List (String × α) → String → Option α
  | [], _ => none
  | (k, v) :: rest, key => if key = k then some v else lookupTbl rest key

/-- The `zh` table of the `ui` constant. -/
def zhTable : List (String × String) :=
  [ ("nav.home", "首页"),
    ("nav.about", "关于项目"),
    ("nav.team", "研究团队"),
    ("nav.news", "新闻动态"),
    ("nav.contact", "联系我们"),
    ("footer.copyright", "版权所有"),
    ("footer.all_rights_reserved", "保留所有权利"),
    ("home.hero.title", "UOS"),
    ("home.hero.subtitle", "面向电力信息场景的人机物融合操作系统"),
    ("home.hero.description", "工业互联网软件平台发展的新阶段"),
    ("home.features.title", "核心特点"),
    ("home.features.ubiquitous.title", "泛在互联"),
    ("home.features.ubiquitous.desc", "支持全生产要素的有序互动"),
    ("home.features.software.title", "软件定义"),
    ("home.features.software.desc", "以软件驾驭系统复杂性"),
    ("home.features.intelligent.title", "智能驱动"),
    ("home.features.intelligent.desc", "实现智能化管控的资源管理"),
    ("about.title", "关于项目"),
    ("team.title", "研究团队"),
    ("news.title", "新闻动态"),
    ("news.read_more", "阅读更多"),
    ("news.back", "返回新闻列表"),
    ("contact.title", "联系我们"),
    ("contact.email", "邮箱"),
    ("contact.address", "地址"),
    ("contact.phone", "电话") ]

/-- The `en` table of the `ui` constant. -/
def enTable : List (String × String) :=
  [ ("nav.home", "Home"),
    ("nav.about", "About"),
    ("nav.team", "Team"),
    ("nav.news", "News"),
    ("nav.contact", "Contact"),
    ("footer.copyright", "Copyright"),
    ("footer.all_rights_reserved", "All rights reserved"),
    ("home.hero.title", "UOS"),
    ("home.hero.subtitle", "Human-Cyber-Physical Convergence Operating System for Power Information Scenarios"),
    ("home.hero.description", "The New Stage of Industrial Internet Software Platform Development"),
    ("home.features.title", "Core Features"),
    ("home.features.ubiquitous.title", "Ubiquitous Connectivity"),
    ("home.features.ubiquitous.desc", "Supporting orderly interaction of all production elements"),
    ("home.features.software.title", "Software-Defined"),
    ("home.features.software.desc", "Controlling system complexity through software"),
    ("home.features.intelligent.title", "Intelligence-Driven"),
    ("home.features.intelligent.desc", "Implementing intelligent resource management"),
    ("about.title", "About the Project"),
    ("team.title", "Research Team"),
    ("news.title", "News"),
    ("news.read_more", "Read More"),
    ("news.back", "Back to News"),
    ("contact.title", "Contact Us"),
    ("contact.email", "Email"),
    ("contact.address", "Address"),
    ("contact.phone", "Phone") ]

/-- The `ui` constant: language code to translation table. -/
def ui : List (String × List (String × String)) := [("zh", zhTable), ("en", enTable)]

/-- JavaScript `String.prototype.split` with a single-character separator,
on the character list of the string: keeps empty pieces, and splitting the
empty string yields `[""]`. -/
def splitChars (sep : Char) : List Char → List String
  | [] => [""]
  | c :: rest =>
    let r := splitChars sep rest
    if c = sep then "" :: r
    else
      match r with
      | [] => [String.mk [c]]
      | h :: t => String.mk (c :: h.data) :: t

/-- JavaScript `s.split(sep)` for a one-character separator. -/
def jsSplit (sep : Char) (s : String) : List String := splitChars sep s.data

/-- The own property names of `Object.prototype`, inherited by every plain
object literal: the JavaScript `in` operator and property access find these
even on keys the literal never declared. -/
def protoKeys : List String :=
  ["constructor", "hasOwnProperty", "isPrototypeOf", "propertyIsEnumerable",
   "toLocaleString", "toString", "valueOf",
   "__defineGetter__", "__defineSetter__", "__lookupGetter__", "__lookupSetter__",
   "__proto__"]

/-- JavaScript `key in obj` for a plain object literal modelled as an
association list: true for an own key, and also for every property inherited
from `Object.prototype`. -/
def jsIn {α : Type} (tbl : List (String × α)) (key : String) : Prop :=
  (lookupTbl tbl key).isSome = true ∨ key ∈ protoKeys

instance {α : Type} (tbl : List (String × α)) (key : String) : Decidable (jsIn tbl key) :=
  inferInstanceAs (Decidable (_ ∨ _))

/-- Embedding of `getLangFromUrl(url)`: destructure `url.pathname.split('/')`
as `[, lang]` (the element at index 1, `undefined` when absent), return
`lang` if `lang in ui` — which, by the prototype chain, also accepts
inherited `Object.prototype` property names such as `toString` — else
`defaultLang`. -/
def getLangFromUrl (pathname : String) : String :=
  match (jsSplit '/' pathname)[1]? with
  | some lang => if jsIn ui lang then lang else defaultLang
  | none => defaultLang

/-- JavaScript `a || b` on possibly-undefined strings: returns `b` exactly
when `a` is falsy, i.e. `undefined` (`none`) or the empty string. -/
def jsOr (a b : Option String) : Option String :=
  match a with
  | some s => if s = "" then b else some s
  | none => b

/-- `ui[lang]`: the translation table bound to `lang` in `ui`
(the empty table for a non-key, which the TypeScript types rule out). -/
def uiTable (lang : String) : List (String × String) := (lookupTbl ui lang).getD []

/-- The string-valued, own-property projection of the closure returned by
`useTranslations(lang)`: `t(key) = ui[lang][key] || ui[defaultLang][key]`
computed with own-key lookup only. It agrees with the full embedding
`useTranslationsJs` below on every key that does not collide with an
`Object.prototype` property name (lemma `useTranslationsJs_agrees`);
theorems that rely on it confine their keys, by hypothesis, to registered
table keys, where own properties shadow the prototype. -/
def useTranslations (lang : String) : String → Option String :=
  fun key => jsOr (lookupTbl (uiTable lang) key) (lookupTbl (uiTable defaultLang) key)

/-- A dynamic JavaScript value as seen by the translation lookup: a string,
a member inherited from `Object.prototype` (a truthy non-string such as the
`toString` function), or `undefined`. -/
inductive JsValue where
  | str (s : String)
  | protoFn (name : String)
  | undefinedV
deriving DecidableEq

/-- Full JavaScript property access `tbl[key]` on a string-valued object
literal: an own property wins; otherwise a property inherited from
`Object.prototype`; otherwise `undefined`. -/
def jsGet (tbl : List (String × String)) (key : String) : JsValue :=
  match lookupTbl tbl key with
  | some s => .str s
  | none => if key ∈ protoKeys then .protoFn key else .undefinedV

/-- JavaScript truthiness: `undefined` and the empty string are falsy;
non-empty strings and inherited function members are truthy. -/
def jsTruthy : JsValue → Bool
  | .str s => !(s == "")
  | .protoFn _ => true
  | .undefinedV => false

/-- JavaScript `a || b` on dynamic values: `a` when truthy, else `b`. -/
def jsOrV (a b : JsValue) : JsValue := if jsTruthy a then a else b

/-- Full embedding of `useTranslations(lang)`: the returned closure
`t(key) = ui[lang][key] || ui[defaultLang][key]`, with property access
traversing the prototype chain. -/
def useTranslationsJs (lang : String) : String → JsValue :=
  fun key => jsOrV (jsGet (uiTable lang) key) (jsGet (uiTable defaultLang) key)

/-- Coercion of an own-property lookup result into a dynamic value. -/
def optToJs : Option String → JsValue
  | some s => .str s
  | none => .undefinedV

/-- Follows the spec's words (section 4.2): `resolveLanguage` inspects the
first NON-EMPTY '/'-separated path segment; if it exactly matches a supported
language code that code is resolved, otherwise the default language. -/
def resolveLanguageSpec (requestPath : String) (supported : List String) (dflt : String) : String :=
  match (jsSplit '/' requestPath).find? (fun seg => seg != "") with
  | some seg => if seg ∈ supported then seg else dflt
  | none => dflt

/-!
Content ingestion and validation. The collection schemas are embedded from
the two zod schema declarations of the repository: the `news` collection of
`src/content/config.ts` (`title: z.string()`, `description: z.string()`,
`pubDate: z.date()`, `lang: z.string().optional()`), and the alternate
`newsCollection` schema (`lang: z.enum(['zh','en'])` required,
`image: z.string().optional()`). Front-matter values are dynamic; `z.date()`
accepts only a date value, dates are encoded as `Nat` (yyyymmdd). zod checks
the declared fields in shape order, collects one issue naming each offending
field, and passes accepted values through unchanged; unknown keys are
stripped.
-/

/-- A dynamic front-matter value: a string, a date, or anything else. -/
inductive FMValue where
  | str (s : String)
  | date (n : Nat)
  | other
deriving DecidableEq

/-- A raw authored document: front-matter fields (absent = `none`) plus body. -/
structure RawDoc where
  title : Option FMValue
  description : Option FMValue
  pubDate : Option FMValue
  lang : Option FMValue
  image : Option FMValue
  body : String
deriving DecidableEq

/-- A validated record of the `news` collection of `src/content/config.ts`. -/
structure NewsRecord where
  title : String
  description : String
  pubDate : Nat
  lang : Option String
  body : String
deriving DecidableEq

/-- A validated record of the alternate `newsCollection` schema. -/
structure NewsRecordEnum where
  title : String
  description : String
  pubDate : Nat
  lang : String
  image : Option String
  body : String
deriving DecidableEq

/-- `z.string()` on one field: present string values pass through; a missing
or non-string value is one issue naming the field. -/
def checkStr (name : String) (v : Option FMValue) : Except String String :=
  match v with
  | some (.str s) => .ok s
  | _ => .error name

/-- `z.date()` on one field. -/
def checkDate (name : String) (v : Option FMValue) : Except String Nat :=
  match v with
  | some (.date n) => .ok n
  | _ => .error name

/-- `z.string().optional()` on one field: absence is accepted. -/
def checkOptStr (name : String) (v : Option FMValue) : Except String (Option String) :=
  match v with
  | none => .ok none
  | some (.str s) => .ok (some s)
  | _ => .error name

/-- `z.enum(values)` on one field: a present string in `values` passes;
anything else is one issue naming the field. -/
def checkEnum (name : String) (allowed : List String) (v : Option FMValue) : Except String String :=
  match v with
  | some (.str s) => if s ∈ allowed then .ok s else .error name
  | _ => .error name

/-- The issues contributed by one field check. -/
def errList {α : Type} : Except String α → List String
  | .ok _ => []
  | .error e => [e]

/-- Whether an `Except` is a success. -/
def exOk {ε α : Type} : Except ε α → Bool
  | .ok _ => true
  | .error _ => false

/-- Validation of one raw document against the `news` schema of
`src/content/config.ts`: `title`, `description`, `pubDate` required,
`lang` an optional unconstrained string; on failure, the issues naming
the offending fields, in shape order. -/
def validateNews (d : RawDoc) : Except (List String) NewsRecord :=
  match checkStr "title" d.title, checkStr "description" d.description,
        checkDate "pubDate" d.pubDate, checkOptStr "lang" d.lang with
  | .ok t, .ok ds, .ok p, .ok l => .ok ⟨t, ds, p, l, d.body⟩
  | t, ds, p, l => .error (errList t ++ errList ds ++ errList p ++ errList l)

/-- Validation of one raw document against the alternate `newsCollection`
schema: `lang` must be exactly one of `zh`, `en` and is required;
`image` is an optional string. -/
def validateNewsEnum (d : RawDoc) : Except (List String) NewsRecordEnum :=
  match checkStr "title" d.title, checkStr "description" d.description,
        checkDate "pubDate" d.pubDate, checkEnum "lang" ["zh", "en"] d.lang,
        checkOptStr "image" d.image with
  | .ok t, .ok ds, .ok p, .ok l, .ok im => .ok ⟨t, ds, p, l, im, d.body⟩
  | t, ds, p, l, im =>
      .error (errList t ++ errList ds ++ errList p ++ errList l ++ errList im)

/-- Modelled from the spec: the `loadCollection` driver (Astro's content
machinery, which is not part of this repository's sources) validates each
discovered raw document in discovery order against the collection schema;
a document failing validation yields one `ValidationError` (here: its
discovery index paired with the offending field names) and is excluded,
while the remaining documents continue to validate and load independently. -/
def loadCollectionAux : Nat → List RawDoc → List NewsRecord × List (Nat × List String)
  | _, [] => ([], [])
  | i, d :: rest =>
    let r := loadCollectionAux (i + 1) rest
    match validateNews d with
    | .ok nr => (nr :: r.1, r.2)
    | .error fs => (r.1, (i, fs) :: r.2)

/-- Modelled from the spec: `loadCollection` over the discovery-ordered raw
documents; first component the accepted records in discovery order, second
the validation errors. -/
def loadCollection (docs : List RawDoc) : List NewsRecord × List (Nat × List String) :=
  loadCollectionAux 0 docs

/-- A placeholder record, used only to express the image of a valid document
as a total function. -/
def blankRecord : NewsRecord := ⟨"", "", 0, none, ""⟩

/-- The record a raw document validates to (the placeholder when invalid). -/
def recordOf (d : RawDoc) : NewsRecord := ((validateNews d).toOption).getD blankRecord

/-- The offending field names reported for a document (empty on success). -/
def errOf {α : Type} : Except (List String) α → List String
  | .ok _ => []
  | .error es => es

/-- A raw document that is well formed except that its `lang` is `fr`,
outside the supported set. -/
def frDoc : RawDoc :=
  ⟨some (.str "T"), some (.str "D"), some (.date 20240115), some (.str "fr"), none, "body"⟩

/-- A raw document missing only its `title`. -/
def titleMissingDoc : RawDoc :=
  ⟨none, some (.str "D"), some (.date 20250610), none, none, "b"⟩

/-- A well-formed raw document with the later publication date. -/
def laterDoc : RawDoc :=
  ⟨some (.str "Significant Progress in Standards Development"),
   some (.str "D1"), some (.date 20250610), some (.str "en"), none, "b1"⟩

/-- A well-formed raw document with the earlier publication date. -/
def earlierDoc : RawDoc :=
  ⟨some (.str "UOS Project Officially Launched"),
   some (.str "D2"), some (.date 20240115), some (.str "en"), none, "b2"⟩

/-- A well-formed raw document used to instantiate the round-trip law. -/
def sampleDoc : RawDoc :=
  ⟨some (.str "UOS Project Officially Launched"),
   some (.str "Desc"), some (.date 20240115), some (.str "en"), none, "body"⟩

/-!
Helper lemmas.
-/

theorem lookupTbl_isSome_iff {α : Type} (tbl : List (String × α)) (k : String) :
    (lookupTbl tbl k).isSome = true ↔ k ∈ tbl.map Prod.fst := by
  induction tbl with
  | nil => simp [lookupTbl]
  | cons p rest ih =>
    obtain ⟨k', v⟩ := p
    by_cases hk : k = k'
    · subst hk
      simp [lookupTbl]
    · simp [lookupTbl, hk, ih]

theorem lookupTbl_mem_snd {α : Type} {tbl : List (String × α)} {k : String} {v : α}
    (h : lookupTbl tbl k = some v) : v ∈ tbl.map Prod.snd := by
  induction tbl with
  | nil => simp [lookupTbl] at h
  | cons p rest ih =>
    obtain ⟨k', v'⟩ := p
    simp only [lookupTbl] at h
    by_cases hk : k = k'
    · rw [if_pos hk] at h
      injection h with h
      subst h
      simp
    · rw [if_neg hk] at h
      simpa using Or.inr (ih h)

theorem ui_keys_eq : ui.map Prod.fst = ["zh", "en"] := by decide

theorem zh_en_keys_eq : zhTable.map Prod.fst = enTable.map Prod.fst := by decide

theorem zhTable_values_ne_empty : ∀ v ∈ zhTable.map Prod.snd, v ≠ "" := by decide

theorem enTable_values_ne_empty : ∀ v ∈ enTable.map Prod.snd, v ≠ "" := by decide

theorem uiTable_zh : uiTable "zh" = zhTable := rfl

theorem uiTable_en : uiTable "en" = enTable := rfl

theorem exOk_eq_ok {ε α : Type} (e : Except ε α) (h : exOk e = true) : ∃ a, e = .ok a := by
  cases e with
  | ok a => exact ⟨a, rfl⟩
  | error _ => simp [exOk] at h

theorem loadCollectionAux_mem {i : Nat} {docs : List RawDoc} {d : RawDoc} {nr : NewsRecord}
    (hd : d ∈ docs) (hv : validateNews d = .ok nr) : nr ∈ (loadCollectionAux i docs).1 := by
  induction docs generalizing i with
  | nil => simp at hd
  | cons d' rest ih =>
    rcases List.mem_cons.mp hd with h | h
    · subst h
      simp only [loadCollectionAux, hv]
      exact List.mem_cons_self _ _
    · simp only [loadCollectionAux]
      cases hv' : validateNews d' with
      | ok nr' => exact List.mem_cons_of_mem _ (ih h)
      | error fs => exact ih h

theorem loadCollectionAux_length (i : Nat) (docs : List RawDoc) :
    (loadCollectionAux i docs).1.length + (loadCollectionAux i docs).2.length = docs.length := by
  induction docs generalizing i with
  | nil => rfl
  | cons d rest ih =>
    simp only [loadCollectionAux]
    cases hv : validateNews d with
    | ok nr =>
      simp only [List.length_cons]
      have := ih (i + 1)
      omega
    | error fs =>
      simp only [List.length_cons]
      have := ih (i + 1)
      omega

theorem loadCollectionAux_sublist (i : Nat) (docs : List RawDoc) :
    ∃ ds : List RawDoc, ds.Sublist docs ∧ (∀ d ∈ ds, exOk (validateNews d) = true) ∧
      (loadCollectionAux i docs).1 = ds.map recordOf := by
  induction docs generalizing i with
  | nil => exact ⟨[], List.Sublist.refl _, by simp, rfl⟩
  | cons d rest ih =>
    obtain ⟨ds, hsub, hok, heq⟩ := ih (i + 1)
    cases hv : validateNews d with
    | ok nr =>
      refine ⟨d :: ds, List.Sublist.cons₂ _ hsub, ?_, ?_⟩
      · intro x hx
        rcases List.mem_cons.mp hx with h | h
        · subst h
          simp [hv, exOk]
        · exact hok x h
      · simp only [loadCollectionAux, hv, List.map_cons]
        rw [heq]
        congr 1
        simp [recordOf, hv, Except.toOption]
    | error fs =>
      refine ⟨ds, List.Sublist.cons _ hsub, hok, ?_⟩
      simp only [loadCollectionAux, hv]
      exact heq

theorem languages_keys_eq : languages.map Prod.fst = ["zh", "en"] := by decide

theorem uiTable_default : uiTable defaultLang = zhTable := rfl

theorem useTranslationsJs_agrees (lang key : String) (hk : key ∉ protoKeys) :
    useTranslationsJs lang key = optToJs (useTranslations lang key) := by
  cases hL : lookupTbl (uiTable lang) key with
  | none =>
    cases hD : lookupTbl (uiTable defaultLang) key with
    | none =>
      simp [useTranslationsJs, useTranslations, jsGet, jsOrV, jsTruthy, jsOr, optToJs, hL, hD, hk]
    | some t =>
      simp [useTranslationsJs, useTranslations, jsGet, jsOrV, jsTruthy, jsOr, optToJs, hL, hD, hk]
  | some s =>
    by_cases hs0 : s = ""
    · subst hs0
      cases hD : lookupTbl (uiTable defaultLang) key with
      | none =>
        simp [useTranslationsJs, useTranslations, jsGet, jsOrV, jsTruthy, jsOr, optToJs, hL, hD, hk]
      | some t =>
        simp [useTranslationsJs, useTranslations, jsGet, jsOrV, jsTruthy, jsOr, optToJs, hL, hD, hk]
    · simp [useTranslationsJs, useTranslations, jsGet, jsOrV, jsTruthy, jsOr, optToJs, hL, hs0]

theorem checkStr_error {name : String} {v : Option FMValue}
    (h : exOk (checkStr name v) = false) : checkStr name v = .error name := by
  rcases v with _ | fm
  · rfl
  · rcases fm with s | n | _
    · simp [checkStr, exOk] at h
    · rfl
    · rfl

theorem checkDate_error {name : String} {v : Option FMValue}
    (h : exOk (checkDate name v) = false) : checkDate name v = .error name := by
  rcases v with _ | fm
  · rfl
  · rcases fm with s | n | _
    · rfl
    · simp [checkDate, exOk] at h
    · rfl

theorem checkStr_ok {name : String} {v : Option FMValue} {s : String}
    (h : checkStr name v = .ok s) : v = some (.str s) := by
  rcases v with _ | fm
  · simp [checkStr] at h
  · rcases fm with s' | n | _
    · simp only [checkStr, Except.ok.injEq] at h
      subst h
      rfl
    · simp [checkStr] at h
    · simp [checkStr] at h

theorem checkDate_ok {name : String} {v : Option FMValue} {n : Nat}
    (h : checkDate name v = .ok n) : v = some (.date n) := by
  rcases v with _ | fm
  · simp [checkDate] at h
  · rcases fm with s' | n' | _
    · simp [checkDate] at h
    · simp only [checkDate, Except.ok.injEq] at h
      subst h
      rfl
    · simp [checkDate] at h

theorem checkOptStr_ok {name : String} {v : Option FMValue} {l : Option String}
    (h : checkOptStr name v = .ok l) :
    v = none ∧ l = none ∨ ∃ s, v = some (.str s) ∧ l = some s := by
  rcases v with _ | fm
  · left
    refine ⟨rfl, ?_⟩
    injection h with h
    exact h.symm
  · rcases fm with s' | n | _
    · right
      refine ⟨s', rfl, ?_⟩
      injection h with h
      exact h.symm
    · simp [checkOptStr] at h
    · simp [checkOptStr] at h

theorem validateNews_ok_inv {d : RawDoc} {r : NewsRecord} (h : validateNews d = .ok r) :
    checkStr "title" d.title = .ok r.title ∧
    checkStr "description" d.description = .ok r.description ∧
    checkDate "pubDate" d.pubDate = .ok r.pubDate ∧
    checkOptStr "lang" d.lang = .ok r.lang ∧ r.body = d.body := by
  obtain ⟨rt, rd, rp, rl, rb⟩ := r
  cases h1 : checkStr "title" d.title <;> cases h2 : checkStr "description" d.description <;>
    cases h3 : checkDate "pubDate" d.pubDate <;> cases h4 : checkOptStr "lang" d.lang <;>
    simp only [validateNews, h1, h2, h3, h4] at h <;>
    simp_all [NewsRecord.mk.injEq]

/-!
Claim theorems: locale resolution.
-/

/-- C2 counterexample: the claim says `resolveLanguage` inspects the first
NON-EMPTY '/'-separated path segment for every request path, but the code
takes the element at index 1 of the split, which is empty for the pathname
`//en/about`; there the spec's algorithm yields `en` while the code yields
the default `zh`. -/
theorem resolve_first_nonempty_cex :
    resolveLanguageSpec "//en/about" ["zh", "en"] "zh" = "en" ∧
    getLangFromUrl "//en/about" = "zh" ∧
    getLangFromUrl "//en/about" ≠ resolveLanguageSpec "//en/about" ["zh", "en"] "zh" := by
  decide

/-- C2 amended: `getLangFromUrl` inspects the element at index 1 of the
'/'-split of the pathname (the segment immediately after the leading '/',
possibly empty); if `lang in ui` accepts it — a supported language code, or
an inherited `Object.prototype` property name through the prototype chain —
that segment is returned as is; otherwise the default `zh`; the spec's four
concrete examples all hold. -/
theorem getLangFromUrl_second_segment :
    (getLangFromUrl "/en/about" = "en" ∧ getLangFromUrl "/about" = "zh" ∧
     getLangFromUrl "/" = "zh" ∧ getLangFromUrl "/fr/about" = "zh") ∧
    (∀ p seg, (jsSplit '/' p)[1]? = some seg → seg ∈ (["zh", "en"] : List String) →
      getLangFromUrl p = seg) ∧
    (∀ p seg, (jsSplit '/' p)[1]? = some seg → seg ∉ (["zh", "en"] : List String) →
      seg ∉ protoKeys → getLangFromUrl p = "zh") ∧
    (∀ p seg, (jsSplit '/' p)[1]? = some seg → seg ∈ protoKeys →
      getLangFromUrl p = seg) ∧
    (∀ p, (jsSplit '/' p)[1]? = none → getLangFromUrl p = "zh") := by
  refine ⟨by decide, ?_, ?_, ?_, ?_⟩
  · intro p seg h hmem
    have hs : (lookupTbl ui seg).isSome = true :=
      (lookupTbl_isSome_iff ui seg).mpr (by rw [ui_keys_eq]; exact hmem)
    simp [getLangFromUrl, h, jsIn, hs]
  · intro p seg h hmem hproto
    have hs : (lookupTbl ui seg).isSome = false := by
      rw [Bool.eq_false_iff]
      intro hc
      exact hmem (by rw [← ui_keys_eq]; exact (lookupTbl_isSome_iff ui seg).mp hc)
    simp [getLangFromUrl, h, jsIn, hs, hproto, defaultLang]
  · intro p seg h hproto
    simp [getLangFromUrl, h, jsIn, hproto]
  · intro p h
    simp [getLangFromUrl, h, defaultLang]

/-- C2 witness: the amended theorem applied at the pathname `/en/team`
and at the prototype-colliding pathname `/toString/about`. -/
theorem getLangFromUrl_second_segment_witness :
    getLangFromUrl "/en/team" = "en" ∧ getLangFromUrl "/toString/about" = "toString" :=
  ⟨getLangFromUrl_second_segment.2.1 "/en/team" "en" (by decide) (by decide),
   getLangFromUrl_second_segment.2.2.2.1 "/toString/about" "toString" (by decide) (by decide)⟩

/-- C3 counterexample: for the pathname `/toString/about` the index-1
segment `toString` passes the JS `in` test through the `Object.prototype`
chain, so `getLangFromUrl` returns `toString` — not a member of the
supported-language set, refuting the claim that the result is always a
valid supported language code. -/
theorem getLangFromUrl_prototype_escape :
    getLangFromUrl "/toString/about" = "toString" ∧
    "toString" ∉ languages.map Prod.fst := by
  decide

/-- C3 amended: `getLangFromUrl` is total over all string paths — no error
is raised — and its result is always either a member of the
supported-language set (the keys of `languages`, i.e. `zh` and `en`) or the
name of a property inherited from `Object.prototype` (the JS `in` pitfall);
whenever the segment after the leading '/' does not collide with an
`Object.prototype` property name — in particular on every page path of the
site — the result is a supported language code. -/
theorem getLangFromUrl_total_amended :
    (∀ p : String, getLangFromUrl p ∈ languages.map Prod.fst ∨ getLangFromUrl p ∈ protoKeys) ∧
    (∀ p seg, (jsSplit '/' p)[1]? = some seg → seg ∉ protoKeys →
      getLangFromUrl p ∈ languages.map Prod.fst) ∧
    (∀ p, (jsSplit '/' p)[1]? = none → getLangFromUrl p ∈ languages.map Prod.fst) := by
  refine ⟨?_, ?_, ?_⟩
  · intro p
    rw [languages_keys_eq]
    unfold getLangFromUrl
    cases h : (jsSplit '/' p)[1]? with
    | none => simp [defaultLang]
    | some lang =>
      show (if jsIn ui lang then lang else defaultLang) ∈ ["zh", "en"] ∨
        (if jsIn ui lang then lang else defaultLang) ∈ protoKeys
      by_cases hin : jsIn ui lang
      · have hin' : (lookupTbl ui lang).isSome = true ∨ lang ∈ protoKeys := hin
        rw [if_pos hin]
        rcases hin' with hs | hs
        · left
          have hm := (lookupTbl_isSome_iff ui lang).mp hs
          rw [ui_keys_eq] at hm
          exact hm
        · right
          exact hs
      · rw [if_neg hin]
        left
        simp [defaultLang]
  · intro p seg h hproto
    rw [languages_keys_eq]
    unfold getLangFromUrl
    rw [h]
    show (if jsIn ui seg then seg else defaultLang) ∈ ["zh", "en"]
    by_cases hs : (lookupTbl ui seg).isSome = true
    · have hin : jsIn ui seg := Or.inl hs
      rw [if_pos hin]
      have hm := (lookupTbl_isSome_iff ui seg).mp hs
      rw [ui_keys_eq] at hm
      exact hm
    · have hin : ¬ jsIn ui seg := by
        intro hc
        have hc' : (lookupTbl ui seg).isSome = true ∨ seg ∈ protoKeys := hc
        rcases hc' with hc' | hc'
        · exact hs hc'
        · exact hproto hc'
      rw [if_neg hin]
      simp [defaultLang]
  · intro p h
    rw [languages_keys_eq]
    unfold getLangFromUrl
    rw [h]
    simp [defaultLang]

/-- C3 witness: the amended totality theorem applied at a path with an
unsupported, non-prototype prefix. -/
theorem getLangFromUrl_total_amended_witness :
    getLangFromUrl "/docs/guide" ∈ languages.map Prod.fst :=
  getLangFromUrl_total_amended.2.1 "/docs/guide" "docs" (by decide) (by decide)

/-- C10: noninterference of trailing path segments: `getLangFromUrl`
depends only on the element at index 1 of the '/'-split of the pathname;
two pathnames agreeing there resolve to the same language. -/
theorem getLangFromUrl_noninterference :
    ∀ p q : String, (jsSplit '/' p)[1]? = (jsSplit '/' q)[1]? →
      getLangFromUrl p = getLangFromUrl q := by
  intro p q h
  unfold getLangFromUrl
  rw [h]

/-- C10 witness: two pathnames sharing the segment `en` but differing in
their trailing segments resolve identically. -/
theorem getLangFromUrl_noninterference_witness :
    getLangFromUrl "/en/about" = getLangFromUrl "/en/team/page" :=
  getLangFromUrl_noninterference "/en/about" "/en/team/page" (by decide)

/-!
Claim theorems: translation lookup.
-/

/-- C1 counterexample: for the key `nav.missing`, registered in neither the
requested language's table nor the default language's table (and not an
`Object.prototype` property name), the translation lookup silently yields
`undefined`; no `MissingTranslationError` exists in the code, contradicting
the claim that lookup never silently returns an undefined string. -/
theorem translate_missing_key_silent :
    lookupTbl (uiTable "en") "nav.missing" = none ∧
    lookupTbl (uiTable defaultLang) "nav.missing" = none ∧
    useTranslationsJs "en" "nav.missing" = JsValue.undefinedV := by
  decide

/-- C1 amended: for every supported language and every key, the lookup
returns the string registered for `(lang, key)` when present (all registered
strings being non-empty); otherwise, for a key that does not collide with an
`Object.prototype` property name, it returns whatever property access yields
for `(defaultLang, key)`, and in particular silently returns `undefined`
rather than failing with an error when the key is absent from both tables;
for a key that does collide (e.g. `toString`), property access finds the
inherited truthy member and the lookup returns it instead of `undefined`. -/
theorem translate_fallback_amended :
    ∀ lang, lang ∈ languages.map Prod.fst → ∀ key : String,
      (∀ s, lookupTbl (uiTable lang) key = some s → useTranslationsJs lang key = .str s) ∧
      (lookupTbl (uiTable lang) key = none → key ∉ protoKeys →
        useTranslationsJs lang key = jsGet (uiTable defaultLang) key) ∧
      (lookupTbl (uiTable lang) key = none → lookupTbl (uiTable defaultLang) key = none →
        key ∉ protoKeys → useTranslationsJs lang key = JsValue.undefinedV) ∧
      (lookupTbl (uiTable lang) key = none → key ∈ protoKeys →
        useTranslationsJs lang key = JsValue.protoFn key) := by
  intro lang hlang key
  have hlang' : lang = "zh" ∨ lang = "en" := by
    rw [languages_keys_eq] at hlang
    simpa using hlang
  have hne : ∀ v ∈ (uiTable lang).map Prod.snd, v ≠ "" := by
    rcases hlang' with h | h <;> subst h
    · rw [uiTable_zh]
      exact zhTable_values_ne_empty
    · rw [uiTable_en]
      exact enTable_values_ne_empty
  refine ⟨?_, ?_, ?_, ?_⟩
  · intro s hs
    have hsne : s ≠ "" := hne s (lookupTbl_mem_snd hs)
    simp [useTranslationsJs, jsGet, jsOrV, jsTruthy, hs, hsne]
  · intro h0 hp
    simp [useTranslationsJs, jsGet, jsOrV, jsTruthy, h0, hp]
  · intro h0 h1 hp
    simp [useTranslationsJs, jsGet, jsOrV, jsTruthy, h0, h1, hp]
  · intro h0 hp
    simp [useTranslationsJs, jsGet, jsOrV, jsTruthy, h0, hp]

/-- C1 witness: the amended theorem applied at language `en` and the keys
`nav.home` (registered English string returned) and `toString` (inherited
`Object.prototype` member returned). -/
theorem translate_fallback_amended_witness :
    useTranslationsJs "en" "nav.home" = JsValue.str "Home" ∧
    useTranslationsJs "en" "toString" = JsValue.protoFn "toString" :=
  ⟨(translate_fallback_amended "en" (by decide) "nav.home").1 "Home" (by decide),
   (translate_fallback_amended "en" (by decide) "toString").2.2.2 (by decide) (by decide)⟩

/-- C8: the Locale Table invariant: the default language `zh` is one of the
supported language codes; every key registered in the default language's
table (`zh`) is registered in the `en` table as well; and for every supported
language, lookup of a key registered for the default language never fails,
by the fallback rule. -/
theorem locale_table_invariant :
    defaultLang ∈ languages.map Prod.fst ∧
    (∀ k, (lookupTbl zhTable k).isSome = true → (lookupTbl enTable k).isSome = true) ∧
    (∀ lang, lang ∈ languages.map Prod.fst → ∀ k,
      (lookupTbl zhTable k).isSome = true → (useTranslations lang k).isSome = true) := by
  refine ⟨by decide, ?_, ?_⟩
  · intro k h
    rw [lookupTbl_isSome_iff] at h ⊢
    rw [← zh_en_keys_eq]
    exact h
  · intro lang hlang k hk
    obtain ⟨v, hv⟩ := Option.isSome_iff_exists.mp hk
    have hlang' : lang = "zh" ∨ lang = "en" := by
      rw [languages_keys_eq] at hlang
      simpa using hlang
    rcases hlang' with h | h <;> subst h
    · simp only [useTranslations, uiTable_zh, uiTable_default, hv, jsOr]
      by_cases hv0 : v = "" <;> simp [hv0]
    · simp only [useTranslations, uiTable_en, uiTable_default, hv, jsOr]
      cases hL : lookupTbl enTable k with
      | none => simp
      | some s => by_cases hs0 : s = "" <;> simp [hs0]

/-- C8 witness: the invariant applied at the key `news.back` of the default
table and the language `en`. -/
theorem locale_table_invariant_witness :
    (lookupTbl enTable "news.back").isSome = true ∧
    (useTranslations "en" "news.back").isSome = true :=
  ⟨locale_table_invariant.2.1 "news.back" (by decide),
   locale_table_invariant.2.2 "en" (by decide) "news.back" (by decide)⟩

/-- C9: the `ui[lang][key] || ui[defaultLang][key]` lookup falls back to the
default language's string whenever the requested language's registered value
is falsy, including when it is the empty string (first conjunct, stated for
the `jsOr` combinator that `useTranslations` is built from, over arbitrary
tables); consequently, for every supported language and every key whose
default (`zh`) entry is non-empty, the lookup never returns the empty
string. -/
theorem translate_falsy_fallback :
    (∀ (tbl dflt : List (String × String)) (key : String),
      lookupTbl tbl key = some "" →
      jsOr (lookupTbl tbl key) (lookupTbl dflt key) = lookupTbl dflt key) ∧
    (∀ lang, lang ∈ languages.map Prod.fst → ∀ key v,
      lookupTbl zhTable key = some v → v ≠ "" →
      ∃ s, useTranslations lang key = some s ∧ s ≠ "") := by
  constructor
  · intro tbl dflt key h
    rw [h]
    simp [jsOr]
  · intro lang hlang key v hv hvne
    have hlang' : lang = "zh" ∨ lang = "en" := by
      rw [languages_keys_eq] at hlang
      simpa using hlang
    rcases hlang' with h | h <;> subst h
    · refine ⟨v, ?_, hvne⟩
      simp [useTranslations, uiTable_zh, uiTable_default, hv, jsOr, hvne]
    · simp only [useTranslations, uiTable_en, uiTable_default, hv, jsOr]
      cases hL : lookupTbl enTable key with
      | none => exact ⟨v, rfl, hvne⟩
      | some s =>
        by_cases hs0 : s = ""
        · exact ⟨v, by simp [hs0], hvne⟩
        · exact ⟨s, by simp [hs0], hs0⟩

/-- C9 witness: the falsy-fallback theorem applied at language `en` and key
`nav.home`, whose `zh` entry is the non-empty string `首页`. -/
theorem translate_falsy_fallback_witness :
    ∃ s, useTranslations "en" "nav.home" = some s ∧ s ≠ "" :=
  translate_falsy_fallback.2 "en" (by decide) "nav.home" "首页" (by decide) (by decide)

/-!
Claim theorems: content ingestion and validation.
-/

/-- C4 counterexample: under the `news` schema of `src/content/config.ts`,
where `lang` is declared `z.string().optional()`, a document whose `lang` is
`fr` — outside the supported set — is ACCEPTED, not rejected with a
`ValidationError` as the claim states. -/
theorem news_schema_accepts_unsupported_lang :
    validateNews frDoc = .ok ⟨"T", "D", 20240115, some "fr", "body"⟩ ∧
    "fr" ∉ languages.map Prod.fst :=
  ⟨rfl, by decide⟩

/-- C4 amended: under the `news` schema of `src/content/config.ts`, `lang`
is an unconstrained optional string, so any otherwise well-formed document
with any `lang` string — supported or not — is accepted, and a document
omitting `lang` is accepted; under the alternate `newsCollection` schema
(`lang: z.enum(['zh','en'])`, required), a document with `lang` outside the
supported set IS rejected with a `ValidationError` naming `lang`, but a
document omitting `lang` is rejected as well, since there `lang` is not
optional. -/
theorem lang_validation_amended :
    (∀ (d : RawDoc) (s : String), exOk (checkStr "title" d.title) = true →
      exOk (checkStr "description" d.description) = true →
      exOk (checkDate "pubDate" d.pubDate) = true →
      d.lang = some (.str s) → exOk (validateNews d) = true) ∧
    (∀ d : RawDoc, exOk (checkStr "title" d.title) = true →
      exOk (checkStr "description" d.description) = true →
      exOk (checkDate "pubDate" d.pubDate) = true →
      d.lang = none → exOk (validateNews d) = true) ∧
    (∀ d : RawDoc, d.lang = some (.str "fr") →
      exOk (validateNewsEnum d) = false ∧ "lang" ∈ errOf (validateNewsEnum d)) ∧
    (∀ d : RawDoc, d.lang = none →
      exOk (validateNewsEnum d) = false ∧ "lang" ∈ errOf (validateNewsEnum d)) := by
  refine ⟨?_, ?_, ?_, ?_⟩
  · intro d s h1 h2 h3 h4
    obtain ⟨a, ha⟩ := exOk_eq_ok _ h1
    obtain ⟨b, hb⟩ := exOk_eq_ok _ h2
    obtain ⟨c, hc⟩ := exOk_eq_ok _ h3
    have hl : checkOptStr "lang" d.lang = .ok (some s) := by rw [h4]; rfl
    simp [validateNews, ha, hb, hc, hl, exOk]
  · intro d h1 h2 h3 h4
    obtain ⟨a, ha⟩ := exOk_eq_ok _ h1
    obtain ⟨b, hb⟩ := exOk_eq_ok _ h2
    obtain ⟨c, hc⟩ := exOk_eq_ok _ h3
    have hl : checkOptStr "lang" d.lang = .ok none := by rw [h4]; rfl
    simp [validateNews, ha, hb, hc, hl, exOk]
  · intro d h4
    have hl : checkEnum "lang" ["zh", "en"] d.lang = .error "lang" := by rw [h4]; rfl
    cases h1 : checkStr "title" d.title <;> cases h2 : checkStr "description" d.description <;>
      cases h3 : checkDate "pubDate" d.pubDate <;> cases h5 : checkOptStr "image" d.image <;>
      simp [validateNewsEnum, h1, h2, h3, hl, h5, errList, errOf, exOk]
  · intro d h4
    have hl : checkEnum "lang" ["zh", "en"] d.lang = .error "lang" := by rw [h4]; rfl
    cases h1 : checkStr "title" d.title <;> cases h2 : checkStr "description" d.description <;>
      cases h3 : checkDate "pubDate" d.pubDate <;> cases h5 : checkOptStr "image" d.image <;>
      simp [validateNewsEnum, h1, h2, h3, hl, h5, errList, errOf, exOk]

/-- C4 witness: the amended theorem applied at the concrete document whose
`lang` is `fr`: the config.ts schema accepts it, the enum schema rejects it
naming `lang`. -/
theorem lang_validation_amended_witness :
    exOk (validateNews frDoc) = true ∧
    (exOk (validateNewsEnum frDoc) = false ∧ "lang" ∈ errOf (validateNewsEnum frDoc)) :=
  ⟨lang_validation_amended.1 frDoc "fr" (by decide) (by decide) (by decide) (by decide),
   lang_validation_amended.2.2.1 frDoc (by decide)⟩

/-- C5: a document whose `title` (resp. `description`, `pubDate`) is missing
or wrongly typed, all other fields being acceptable, is rejected with exactly
one issue naming that field; every document validating successfully in a
batch contributes its record regardless of its siblings, and each document
in a batch yields either a record or one error entry, so one malformed
document never fails the whole collection. -/
theorem load_single_fault_isolation :
    (∀ d : RawDoc, exOk (checkStr "title" d.title) = false →
      exOk (checkStr "description" d.description) = true →
      exOk (checkDate "pubDate" d.pubDate) = true →
      exOk (checkOptStr "lang" d.lang) = true →
      validateNews d = .error ["title"]) ∧
    (∀ d : RawDoc, exOk (checkStr "title" d.title) = true →
      exOk (checkStr "description" d.description) = false →
      exOk (checkDate "pubDate" d.pubDate) = true →
      exOk (checkOptStr "lang" d.lang) = true →
      validateNews d = .error ["description"]) ∧
    (∀ d : RawDoc, exOk (checkStr "title" d.title) = true →
      exOk (checkStr "description" d.description) = true →
      exOk (checkDate "pubDate" d.pubDate) = false →
      exOk (checkOptStr "lang" d.lang) = true →
      validateNews d = .error ["pubDate"]) ∧
    (∀ (docs : List RawDoc) (d : RawDoc) (nr : NewsRecord), d ∈ docs →
      validateNews d = .ok nr → nr ∈ (loadCollection docs).1) ∧
    (∀ docs : List RawDoc,
      (loadCollection docs).1.length + (loadCollection docs).2.length = docs.length) := by
  refine ⟨?_, ?_, ?_, ?_, ?_⟩
  · intro d h1 h2 h3 h4
    have hT := checkStr_error h1
    obtain ⟨b, hb⟩ := exOk_eq_ok _ h2
    obtain ⟨c, hc⟩ := exOk_eq_ok _ h3
    obtain ⟨l, hl⟩ := exOk_eq_ok _ h4
    simp [validateNews, hT, hb, hc, hl, errList]
  · intro d h1 h2 h3 h4
    obtain ⟨a, ha⟩ := exOk_eq_ok _ h1
    have hD := checkStr_error h2
    obtain ⟨c, hc⟩ := exOk_eq_ok _ h3
    obtain ⟨l, hl⟩ := exOk_eq_ok _ h4
    simp [validateNews, ha, hD, hc, hl, errList]
  · intro d h1 h2 h3 h4
    obtain ⟨a, ha⟩ := exOk_eq_ok _ h1
    obtain ⟨b, hb⟩ := exOk_eq_ok _ h2
    have hP := checkDate_error h3
    obtain ⟨l, hl⟩ := exOk_eq_ok _ h4
    simp [validateNews, ha, hb, hP, hl, errList]
  · intro docs d nr hd hv
    exact loadCollectionAux_mem hd hv
  · intro docs
    exact loadCollectionAux_length 0 docs

/-- C5 witness: the isolation theorem applied in a two-document batch: the
document missing its `title` is rejected with exactly the issue `title`,
while its well-formed sibling still loads. -/
theorem load_single_fault_isolation_witness :
    validateNews titleMissingDoc = .error ["title"] ∧
    (⟨"Significant Progress in Standards Development", "D1", 20250610, some "en", "b1"⟩ :
      NewsRecord) ∈ (loadCollection [titleMissingDoc, laterDoc]).1 :=
  ⟨load_single_fault_isolation.1 titleMissingDoc (by decide) (by decide) (by decide) (by decide),
   load_single_fault_isolation.2.2.2.1 [titleMissingDoc, laterDoc] laterDoc _
     (by decide) rfl⟩

/-- C6: `loadCollection` is deterministic (two runs on the same input are
element-wise equal), and order-preserving: its record sequence is the image,
in discovery order, of the subsequence of documents that validate; no
sorting by date is performed, witnessed by a batch whose later-dated
document precedes the earlier-dated one in both input and output. -/
theorem load_deterministic_order :
    (∀ docs : List RawDoc,
      List.Forall₂ (fun a b => a = b) (loadCollection docs).1 (loadCollection docs).1) ∧
    (∀ docs : List RawDoc, ∃ ds : List RawDoc, ds.Sublist docs ∧
      (∀ d ∈ ds, exOk (validateNews d) = true) ∧
      (loadCollection docs).1 = ds.map recordOf) ∧
    (loadCollection [laterDoc, earlierDoc]).1.map NewsRecord.pubDate = [20250610, 20240115] := by
  refine ⟨?_, ?_, by decide⟩
  · intro docs
    exact List.forall₂_same.mpr (fun x _ => rfl)
  · intro docs
    exact loadCollectionAux_sublist 0 docs

/-- C6 witness: the order conjunct applied to the concrete unsorted batch. -/
theorem load_deterministic_order_witness :
    (loadCollection [laterDoc, earlierDoc]).1.map NewsRecord.pubDate = [20250610, 20240115] :=
  load_deterministic_order.2.2

/-- C7: round-trip of validation: every raw document accepted by the `news`
schema has its `title`, `description`, `pubDate` and `lang` values appear
unchanged (modulo the date value's parse) in the resulting record, and the
body passes through untouched; validation neither drops, renames nor
rewrites accepted values. -/
theorem validateNews_roundtrip :
    ∀ (d : RawDoc) (r : NewsRecord), validateNews d = .ok r →
      d.title = some (.str r.title) ∧ d.description = some (.str r.description) ∧
      d.pubDate = some (.date r.pubDate) ∧
      (d.lang = none ∧ r.lang = none ∨ ∃ s, d.lang = some (.str s) ∧ r.lang = some s) ∧
      r.body = d.body := by
  intro d r h
  obtain ⟨h1, h2, h3, h4, h5⟩ := validateNews_ok_inv h
  exact ⟨checkStr_ok h1, checkStr_ok h2, checkDate_ok h3, checkOptStr_ok h4, h5⟩

/-- C7 witness: the round-trip law applied at a concrete accepted document. -/
theorem validateNews_roundtrip_witness :
    sampleDoc.title = some (.str "UOS Project Officially Launched") ∧
    sampleDoc.description = some (.str "Desc") ∧
    sampleDoc.pubDate = some (.date 20240115) ∧
    (sampleDoc.lang = none ∧ (some "en" : Option String) = none ∨
      ∃ s, sampleDoc.lang = some (.str s) ∧ (some "en" : Option String) = some s) ∧
    "body" = sampleDoc.body :=
  validateNews_roundtrip sampleDoc
    ⟨"UOS Project Officially Launched", "Desc", 20240115, some "en", "body"⟩ rfl
